import Mathlib

/-!
# Verification of the cmcp command-line MCP client core

This file gives a shallow embedding, in Lean 4, of the pure core of
`src/cmcp/__init__.py`: the argument-grammar parser (`parse_items`), the
transport selector (the branch structure at the top of `Client.invoke`),
the session invocation pipeline (modelled as an event trace reflecting the
nested `async with` blocks), the `main` entry validation, and the verbose
JSON-RPC envelope construction.  External library collaborators
(`json.loads`, `shlex.split`, the MCP session library, pydantic
serialization) are modelled at their interface boundary, exactly as the
specification treats them.
-/

set_option autoImplicit false

namespace Cmcp

/-- The universe of structured (JSON-like) values that can appear as a
parameter value after `key:=value` decoding, or as a literal string after
`key=value`.  Numbers are modelled as integers; the decoder itself is an
interface parameter, so the exact numeric universe is immaterial to the
routing logic being verified. -/
inductive JsonValue where
  | null
  | bool (b : Bool)
  | num (n : Int)
  | str (s : String)
  | arr (xs : List JsonValue)
  | obj (fields : List (String × JsonValue))

/-- A sample structured-literal decoder standing in for the external
`json.loads` collaborator at its interface (`String → Option JsonValue`);
used only to instantiate witnesses (the theorems quantify over the
decoder). -/
def decodeSimple (s : String) : Option JsonValue :=
  if s = "true" then some (JsonValue.bool true)
  else if s = "false" then some (JsonValue.bool false)
  else if s = "null" then some JsonValue.null
  else none

/-- Python-`dict` style insertion into an association list: an existing
binding of the key is overwritten in place, otherwise the pair is appended.
This models `d[key] = value` on a `dict` (last write wins). -/
def insertA {α : Type} (k : String) (v : α) : List (String × α) → List (String × α)
  | [] => [(k, v)]
  | (k', v') :: rest => if k' = k then (k, v) :: rest else (k', v') :: insertA k v rest

/-- Lookup in an association list, modelling `d[key]` / `key in d`. -/
def lookupA {α : Type} (k : String) : List (String × α) → Option α
  | [] => none
  | (k', v) :: rest => if k' = k then some v else lookupA k rest

/-- The three separators of the item grammar: `=`, `:=` and `:`. -/
inductive SepKind where
  | eq
  | colonEq
  | colon
deriving DecidableEq, Repr

/-- A character that the key class `[^:=]` excludes. -/
def isSepChar (c : Char) : Bool := c = ':' || c = '='

/-- Split a character list at the first occurrence of `:` or `=`:
returns `(key, separator character, rest)`.  This is what the greedy
group `([^:=]+)` of the pattern `^([^:=]+)(=|:=|:)(.+)$` commits to: the
key is exactly the run of characters before the first separator
character (it can never extend past one, and shrinking it would put a
non-separator character in front of the alternation, which then fails). -/
def splitAtFirstSep : List Char → Option (List Char × Char × List Char)
  | [] => none
  | c :: cs =>
    if isSepChar c then some ([], c, cs)
    else
      match splitAtFirstSep cs with
      | none => none
      | some (k, s, v) => some (c :: k, s, v)

/-- The full match semantics of Python's
`re.match(r"^([^:=]+)(=|:=|:)(.+)$", item, re.DOTALL)`:

* the key must be a non-empty run of characters other than `:`/`=`;
* at the first separator character the alternation `(=|:=|:)` is tried in
  order, and `(.+)` (with DOTALL, so any characters including newlines)
  must be non-empty;
* Python backtracking: when the separator character is `:` followed by
  `=` but nothing after (token `key:=`), the `:=` branch fails on the
  empty value and the engine falls back to the `:` branch with value
  `"="`. -/
def matchItemChars (cs : List Char) : Option (List Char × SepKind × List Char) :=
  match splitAtFirstSep cs with
  | none => none
  | some (key, sepc, rest) =>
    if key = [] then none
    else if sepc = '=' then
      if rest = [] then none else some (key, SepKind.eq, rest)
    else
      -- here `sepc` can only be ':' (splitAtFirstSep yields only ':' or '=')
      match rest with
      | [] => none
      | r :: rest2 =>
        if r = '=' then
          if rest2 = [] then some (key, SepKind.colon, ['='])
          else some (key, SepKind.colonEq, rest2)
        else some (key, SepKind.colon, r :: rest2)

/-- String-level wrapper of `matchItemChars`. -/
def matchItem (s : String) : Option (String × SepKind × String) :=
  match matchItemChars s.toList with
  | none => none
  | some (key, sep, value) => some (String.mk key, sep, String.mk value)

/-- The two `ValueError` shapes raised by `parse_items`, carrying the raw
text exactly as the code interpolates it (`Invalid item: {item!r}` and
`Invalid JSON value: {value!r}`). -/
inductive ParseError where
  | invalidItem (item : String)
  | invalidJson (value : String)
deriving DecidableEq, Repr

/-- The pair of mappings built by `parse_items`: `params` (string keys to
structured values) and `metadata` (string keys to strings). -/
structure ParsedItems where
  params : List (String × JsonValue)
  metadata : List (String × String)

/-- One iteration of the inner `parse` closure of `parse_items`:
match the token, then route on the separator (`=` stores the literal
string, `:=` stores the decoded value or fails, `:` stores into
metadata).  `decode` is the external `json.loads` collaborator. -/
def parse_item (decode : String → Option JsonValue) (item : String)
    (acc : ParsedItems) : Except ParseError ParsedItems :=
  match matchItem item with
  | none => .error (.invalidItem item)
  | some (key, SepKind.eq, value) =>
      .ok ⟨insertA key (JsonValue.str value) acc.params, acc.metadata⟩
  | some (key, SepKind.colonEq, value) =>
      match decode value with
      | some j => .ok ⟨insertA key j acc.params, acc.metadata⟩
      | none => .error (.invalidJson value)
  | some (key, SepKind.colon, value) =>
      .ok ⟨acc.params, insertA key value acc.metadata⟩

/-- The `for item in items: parse(item)` loop of `parse_items`, starting
from an arbitrary accumulated state; a raised `ValueError` aborts the
loop, which `Except` models by short-circuiting. -/
def parseFrom (decode : String → Option JsonValue) (acc : ParsedItems)
    (items : List String) : Except ParseError ParsedItems :=
  items.foldlM (fun a item => parse_item decode item a) acc

/-- The function `parse_items(items)`: run the loop from two empty mappings. -/
def parse_items (decode : String → Option JsonValue) (items : List String) :
    Except ParseError ParsedItems :=
  parseFrom decode ⟨[], []⟩ items

/-- A token on which `parse_item` succeeds: it matches the pattern, and if
its separator is `:=` the decoder accepts its value. -/
def tokenOk (decode : String → Option JsonValue) (t : String) : Bool :=
  match matchItem t with
  | none => false
  | some (_, SepKind.colonEq, v) => (decode v).isSome
  | some _ => true

/-! ## Transport selection (`Client.invoke`, lines 106–137) -/

/-- Decidable equality for `Except` results (needed to evaluate concrete
runs of the embedded functions inside proofs). -/
instance {ε α : Type} [DecidableEq ε] [DecidableEq α] : DecidableEq (Except ε α) := fun a b =>
  match a, b with
  | .ok x, .ok y =>
    if h : x = y then .isTrue (by rw [h]) else .isFalse (by intro hh; cases hh; exact h rfl)
  | .error x, .error y =>
    if h : x = y then .isTrue (by rw [h]) else .isFalse (by intro hh; cases hh; exact h rfl)
  | .ok _, .error _ => .isFalse (by intro hh; cases hh)
  | .error _, .ok _ => .isFalse (by intro hh; cases hh)

/-- Does `target` begin with the pattern `pat`?  (Character-level model of
Python `str.startswith`, kept executable by kernel reduction.) -/
def charsLead : List Char → List Char → Bool
  | [], _ => true
  | _ :: _, [] => false
  | p :: ps, t :: ts => p = t && charsLead ps ts

/-- Python `str.startswith`. -/
def strStartsWith (s pat : String) : Bool := charsLead pat.toList s.toList

/-- Python `str.endswith`. -/
def strEndsWith (s pat : String) : Bool := charsLead pat.toList.reverse s.toList.reverse

/-- The three transport bindings `Client.invoke` can construct, with the
arguments the code passes to the corresponding client constructor. -/
inductive Transport where
  | sse (url : String) (headers : Option (List (String × String)))
  | streamableHttp (url : String) (headers : Option (List (String × String)))
  | stdio (command : String) (args : List String) (env : Option (List (String × String)))
deriving DecidableEq, Repr

/-- Python's `mapping or None`: an empty mapping becomes `None`. -/
def orNone (m : List (String × String)) : Option (List (String × String)) :=
  if m = [] then none else some m

/-- The key/value entries actually carried by an optional header/env
mapping (`None` carries no entries). -/
def headersEntries (h : Option (List (String × String))) : List (String × String) :=
  h.getD []

/-- Python `str.removesuffix`: drop the suffix when present, else return
the string unchanged. -/
def removesuffix (s suffix : String) : String :=
  if strEndsWith s suffix then
    String.mk (s.toList.take (s.toList.length - suffix.toList.length))
  else s

/-- The transport-selection branch of `Client.invoke` (lines 106–137),
as a pure function of the target and metadata.  `split` is the external
`shlex.split` collaborator at its interface.  The `ValueError("stdio
command is empty")` raise is the `.error` case. -/
def selectTransport (split : String → List String)
    (cmd_or_url : String) (metadata : List (String × String)) :
    Except String Transport :=
  if strStartsWith cmd_or_url "http://" || strStartsWith cmd_or_url "https://" then
    let headers := orNone metadata
    if strEndsWith cmd_or_url "/sse" then
      .ok (.sse cmd_or_url headers)
    else
      let url :=
        if strEndsWith cmd_or_url "/mcp" || strEndsWith cmd_or_url "/mcp/" then cmd_or_url
        else removesuffix cmd_or_url "/" ++ "/mcp/"
      .ok (.streamableHttp url headers)
  else
    match split cmd_or_url with
    | [] => .error "stdio command is empty"
    | command :: args => .ok (.stdio command args (orNone metadata))

/-! ## A model of POSIX shell-word splitting

`shlex.split` is an external standard-library collaborator; the spec
describes it only as "POSIX shell-word splitting (honoring quoting)".
The following state machine models that interface: whitespace-separated
words, single quotes taking everything literally, double quotes in which
a backslash escapes only `"` and `\`, and a bare backslash escaping the
next character.  (On malformed input — an unterminated quote or a
trailing escape — the real library raises; this model is lenient there,
and no theorem depends on those inputs.) -/

/-- The `shlex` whitespace class. -/
def wsChar (c : Char) : Bool := c = ' ' || c = '\t' || c = '\r' || c = '\n'

/-- Lexer modes: outside quotes, inside single quotes, inside double
quotes. -/
inductive ShMode where
  | normal
  | single
  | double
deriving DecidableEq, Repr

/-- The word-splitting state machine: remaining input, mode, token in
progress (`none` = between words), accumulated words. -/
def shlexGo : List Char → ShMode → Option (List Char) → List (List Char) → List (List Char)
  | [], .normal, none, acc => acc
  | [], .normal, some tok, acc => acc ++ [tok]
  | [], .single, tok, acc => acc ++ [tok.getD []]
  | [], .double, tok, acc => acc ++ [tok.getD []]
  | c :: rest, .normal, tok, acc =>
    if wsChar c then
      match tok with
      | none => shlexGo rest .normal none acc
      | some t => shlexGo rest .normal none (acc ++ [t])
    else if c = '\'' then shlexGo rest .single (some (tok.getD [])) acc
    else if c = '"' then shlexGo rest .double (some (tok.getD [])) acc
    else if c = '\\' then
      match rest with
      | [] =>
        match tok with
        | none => acc
        | some t => acc ++ [t]
      | d :: rest2 => shlexGo rest2 .normal (some (tok.getD [] ++ [d])) acc
    else shlexGo rest .normal (some (tok.getD [] ++ [c])) acc
  | c :: rest, .single, tok, acc =>
    if c = '\'' then shlexGo rest .normal (some (tok.getD [])) acc
    else shlexGo rest .single (some (tok.getD [] ++ [c])) acc
  | c :: rest, .double, tok, acc =>
    if c = '"' then shlexGo rest .normal (some (tok.getD [])) acc
    else if c = '\\' then
      match rest with
      | [] => acc ++ [tok.getD [] ++ ['\\']]
      | d :: rest2 =>
        if d = '"' || d = '\\' then shlexGo rest2 .double (some (tok.getD [] ++ [d])) acc
        else shlexGo rest2 .double (some (tok.getD [] ++ ['\\', d])) acc
    else shlexGo rest .double (some (tok.getD [] ++ [c])) acc

/-- Model of `shlex.split` in POSIX mode at its interface. -/
def shlexSplitPosix (s : String) : List String :=
  (shlexGo s.toList .normal none []).map String.mk

/-! ## The invocation pipeline (`Client`, `Client.invoke`, `main`) -/

/-- The `METHODS` tuple of the source: the fixed seven-method
enumeration. -/
def METHODS : List String :=
  ["prompts/list", "prompts/get", "resources/list", "resources/read",
   "resources/templates/list", "tools/list", "tools/call"]

/-- The `Client` pydantic model: plain typed fields.  Note that the
model declares `method: str` with no validator, so construction accepts
any string as the method; membership in `METHODS` is checked only by
`main`, before the `Client` is built. -/
structure Client where
  cmd_or_url : String
  method : String
  params : List (String × JsonValue)
  metadata : List (String × String)

/-- Observable events of one `Client.invoke` run, in order: the verbose
request rendering, entering the transport context (`async with client`),
entering the session context (`async with ClientSession`), the
`session.initialize()` handshake, the dispatched session call, the two
result renderings, and the two context-manager exits. -/
inductive Ev where
  | renderRequest
  | openTransport
  | openSession
  | handshake
  | dispatch (method : String)
  | renderResponse
  | renderResult
  | closeSession
  | closeTransport
deriving DecidableEq, Repr

/-- The environment's behaviour at each I/O boundary of one invocation:
whether entering the transport context succeeds, whether entering the
session context succeeds, whether `session.initialize()` succeeds, and
whether the dispatched session call succeeds.  A failure flag models any
exception raised at that await point — including external cancellation,
which in the source surfaces as an exception at an await and unwinds
through the `async with` exits exactly like an error. -/
structure SessionBehavior where
  transportOk : Bool
  sessionOk : Bool
  handshakeOk : Bool
  callOk : Bool
deriving DecidableEq, Repr

/-- The failure outcomes of `Client.invoke`.  `selectError` carries the
`ValueError` message raised during transport selection;
`unsupportedMethod m` is the defensive catch-all of the dispatch `match`
(raised as `ValueError(f"Unsupported method: \x7bm\x7d")`). -/
inductive InvokeError where
  | selectError (msg : String)
  | connectError
  | handshakeError
  | callError
  | unsupportedMethod (m : String)
deriving DecidableEq, Repr

/-- The body that runs inside both `async with` blocks: the handshake,
then the dispatch `match` on `self.method` over the seven cases with a
defensive catch-all, then (on success only) the verbose response
envelope or the bare result rendering. -/
def sessionBody (c : Client) (verbose : Bool) (b : SessionBehavior) :
    List Ev × Except InvokeError Unit :=
  if b.handshakeOk = false then ([Ev.handshake], .error .handshakeError)
  else if c.method ∈ METHODS then
    if b.callOk then
      ([Ev.handshake, Ev.dispatch c.method,
        if verbose then Ev.renderResponse else Ev.renderResult], .ok ())
    else ([Ev.handshake, Ev.dispatch c.method], .error .callError)
  else ([Ev.handshake], .error (.unsupportedMethod c.method))

/-- The full `Client.invoke` as an event trace plus outcome, following
the source line by line: transport selection first (its `ValueError`
aborts with no events); then, when verbose, `show_jsonrpc_request()`;
then `async with client` and `async with ClientSession(...)` nested, with
the body above inside; each context that was successfully entered is
exited again on every path, inner context first (the `async with`
guarantee). -/
def invokeTrace (split : String → List String) (c : Client) (verbose : Bool)
    (b : SessionBehavior) : List Ev × Except InvokeError Unit :=
  match selectTransport split c.cmd_or_url c.metadata with
  | .error msg => ([], .error (.selectError msg))
  | .ok _ =>
    let pre := if verbose then [Ev.renderRequest] else []
    if b.transportOk = false then (pre, .error .connectError)
    else if b.sessionOk = false then
      (pre ++ [Ev.openTransport, Ev.closeTransport], .error .connectError)
    else
      let body := sessionBody c verbose b
      (pre ++ [Ev.openTransport, Ev.openSession] ++ body.1
           ++ [Ev.closeSession, Ev.closeTransport], body.2)

/-- The usage errors `main` reports via `parser.error` before invoking,
and the invocation failure wrapper. -/
inductive MainError where
  | invalidMethod (m : String)
  | itemError (e : ParseError)
  | invokeFailed (e : InvokeError)
deriving DecidableEq, Repr

/-- The pre-connection phase of `main`: check `args.method in METHODS`
(else `parser.error`), then `parse_items` (a `ValueError` becomes
`parser.error`), then construct the `Client` from the parsed pieces.
Both rejections happen before the `Client` exists and before
`client.invoke` is called. -/
def mainPrepare (decode : String → Option JsonValue)
    (cmd_or_url method : String) (items : List String) :
    Except MainError Client :=
  if method ∈ METHODS then
    match parse_items decode items with
    | .error e => .error (.itemError e)
    | .ok pm => .ok ⟨cmd_or_url, method, pm.params, pm.metadata⟩
  else .error (.invalidMethod method)

/-- The entry point `main` end to end: run the pre-connection phase; only when it
succeeds is `Client.invoke` run (via `asyncio.run`).  The trace is empty
— no connection is attempted — when the pre-connection phase rejects. -/
def mainTrace (decode : String → Option JsonValue)
    (split : String → List String) (cmd_or_url method : String)
    (items : List String) (verbose : Bool) (b : SessionBehavior) :
    List Ev × Option MainError :=
  match mainPrepare decode cmd_or_url method items with
  | .error e => ([], some e)
  | .ok c =>
    match invokeTrace split c verbose b with
    | (tr, .ok _) => (tr, none)
    | (tr, .error e) => (tr, some (.invokeFailed e))

/-! ## Verbose JSON-RPC envelopes and result rendering -/

/-- A remote-operation result at the interface the source consumes: the
protocol-session library returns pydantic models, and the only thing the
renderer and the response envelope use is the default-omitting dump
(`model_dump(exclude_defaults=True)`), modelled here as the field list
`dumpExDefaults`; `model_dump_json(..., exclude_defaults=True)` is the
serialization of that same field list. -/
structure MCPResult where
  dumpExDefaults : List (String × JsonValue)

/-- The synthetic request envelope built by `show_jsonrpc_request`:
`JSONRPCRequest(jsonrpc="2.0", id=1, method=self.method,
params=self.params or None)`. -/
structure JSONRPCRequestM where
  jsonrpc : String
  id : Nat
  method : String
  params : Option (List (String × JsonValue))

/-- The synthetic response envelope built by `show_jsonrpc_response`:
`JSONRPCResponse(jsonrpc="2.0", id=1,
result=result.model_dump(exclude_defaults=True))`. -/
structure JSONRPCResponseM where
  jsonrpc : String
  id : Nat
  result : List (String × JsonValue)

/-- The envelope built by `Client.show_jsonrpc_request`. -/
def show_jsonrpc_request (c : Client) : JSONRPCRequestM :=
  ⟨"2.0", 1, c.method, if c.params.isEmpty then none else some c.params⟩

/-- The envelope built by `Client.show_jsonrpc_response`. -/
def show_jsonrpc_response (r : MCPResult) : JSONRPCResponseM :=
  ⟨"2.0", 1, r.dumpExDefaults⟩

mutual

/-- Canonical serialization of a structured value, modelling the stable
JSON text form the renderer emits (spacing details are immaterial; what
matters is that the bare rendering and the response envelope feed the
same data to the same serializer). -/
def jsonSerialize : JsonValue → String
  | .null => "null"
  | .bool true => "true"
  | .bool false => "false"
  | .num n => toString n
  | .str s => "\"" ++ s ++ "\""
  | .arr xs => "[" ++ jsonSerializeArr xs ++ "]"
  | .obj fs => "\x7b" ++ jsonSerializeObj fs ++ "\x7d"

/-- Comma-separated serialization of array elements. -/
def jsonSerializeArr : List JsonValue → String
  | [] => ""
  | [x] => jsonSerialize x
  | x :: y :: xs => jsonSerialize x ++ ", " ++ jsonSerializeArr (y :: xs)

/-- Comma-separated serialization of object fields. -/
def jsonSerializeObj : List (String × JsonValue) → String
  | [] => ""
  | [(k, v)] => "\"" ++ k ++ "\": " ++ jsonSerialize v
  | (k, v) :: f :: fs =>
      "\"" ++ k ++ "\": " ++ jsonSerialize v ++ ", " ++ jsonSerializeObj (f :: fs)

end

/-- The bare (non-verbose) rendering of a result: `print_json(result)`
serializes `model_dump_json(indent=2, exclude_defaults=True)`, i.e. the
default-omitting dump. -/
def bareRender (r : MCPResult) : String :=
  jsonSerialize (JsonValue.obj r.dumpExDefaults)

/-! ## Theorems -/

/-- Appending strings appends their character lists. -/
theorem strToList_append (a b : String) : (a ++ b).toList = a.toList ++ b.toList := by
  cases a; cases b; rfl

/-- Rebuilding a string from its character list is the identity. -/
theorem strMk_toList (s : String) : String.mk s.toList = s := rfl

/-- Evaluating `splitAtFirstSep` on a separator-free run followed by a separator
character commits to exactly that run as the key. -/
theorem splitAtFirstSep_append (key : List Char) (c : Char) (rest : List Char)
    (hkey : ∀ x ∈ key, isSepChar x = false) (hc : isSepChar c = true) :
    splitAtFirstSep (key ++ c :: rest) = some (key, c, rest) := by
  induction key with
  | nil => simp [splitAtFirstSep, hc]
  | cons a as ih =>
    have ha : isSepChar a = false := hkey a (by simp)
    have ih' := ih (fun x hx => hkey x (by simp [hx]))
    simp [splitAtFirstSep, ha, ih']

/-- The `key=value` form of the pattern (non-empty key without separator
characters, non-empty value). -/
theorem matchItemChars_eqForm (key value : List Char)
    (hk1 : key ≠ []) (hk2 : ∀ x ∈ key, isSepChar x = false) (hv : value ≠ []) :
    matchItemChars (key ++ '=' :: value) = some (key, SepKind.eq, value) := by
  simp [matchItemChars, splitAtFirstSep_append key '=' value hk2 (by decide), hk1, hv]

/-- The `key:=value` form: at the first separator position the `:=`
alternative takes precedence over `:` whenever the remaining value is
non-empty. -/
theorem matchItemChars_colonEqForm (key value : List Char)
    (hk1 : key ≠ []) (hk2 : ∀ x ∈ key, isSepChar x = false) (hv : value ≠ []) :
    matchItemChars (key ++ ':' :: '=' :: value) = some (key, SepKind.colonEq, value) := by
  simp [matchItemChars, splitAtFirstSep_append key ':' ('=' :: value) hk2 (by decide), hk1, hv]

/-- The `key:value` form, when the value does not begin with `=` (that
case is the `:=` form). -/
theorem matchItemChars_colonForm (key : List Char) (v : Char) (vs : List Char)
    (hk1 : key ≠ []) (hk2 : ∀ x ∈ key, isSepChar x = false) (hv : v ≠ '=') :
    matchItemChars (key ++ ':' :: v :: vs) = some (key, SepKind.colon, v :: vs) := by
  simp [matchItemChars, splitAtFirstSep_append key ':' (v :: vs) hk2 (by decide), hk1, hv]

/-- A token ending right after `=` does not match (`(.+)` needs at least
one character). -/
theorem matchItemChars_eqEmpty (key : List Char)
    (hk2 : ∀ x ∈ key, isSepChar x = false) :
    matchItemChars (key ++ ['=']) = none := by
  simp [matchItemChars, splitAtFirstSep_append key '=' [] hk2 (by decide)]

/-- A token ending right after `:` does not match. -/
theorem matchItemChars_colonEmpty (key : List Char)
    (hk2 : ∀ x ∈ key, isSepChar x = false) :
    matchItemChars (key ++ [':']) = none := by
  simp [matchItemChars, splitAtFirstSep_append key ':' [] hk2 (by decide)]

/-- Python backtracking on a token ending right after `:=`: the `:=`
alternative fails on the empty value, and the engine falls back to the
`:` alternative with value `"="`. -/
theorem matchItemChars_colonEqEmpty (key : List Char)
    (hk1 : key ≠ []) (hk2 : ∀ x ∈ key, isSepChar x = false) :
    matchItemChars (key ++ [':', '=']) = some (key, SepKind.colon, ['=']) := by
  simp [matchItemChars, splitAtFirstSep_append key ':' ['='] hk2 (by decide), hk1]

/-- String-level `key=value` match. -/
theorem matchItem_eqForm (key value : String)
    (hk1 : key.toList ≠ []) (hk2 : ∀ c ∈ key.toList, isSepChar c = false)
    (hv : value.toList ≠ []) :
    matchItem (key ++ "=" ++ value) = some (key, SepKind.eq, value) := by
  unfold matchItem
  have ht : (key ++ "=" ++ value).toList = key.toList ++ '=' :: value.toList := by
    rw [strToList_append, strToList_append]
    show (key.toList ++ ['=']) ++ value.toList = _
    simp
  rw [ht, matchItemChars_eqForm key.toList value.toList hk1 hk2 hv]
  show some (String.mk key.toList, SepKind.eq, String.mk value.toList) = _
  rw [strMk_toList, strMk_toList]

/-- String-level `key:=value` match: `:=` wins over `:` at the same
position whenever the value is non-empty. -/
theorem matchItem_colonEqForm (key value : String)
    (hk1 : key.toList ≠ []) (hk2 : ∀ c ∈ key.toList, isSepChar c = false)
    (hv : value.toList ≠ []) :
    matchItem (key ++ ":=" ++ value) = some (key, SepKind.colonEq, value) := by
  unfold matchItem
  have ht : (key ++ ":=" ++ value).toList = key.toList ++ ':' :: '=' :: value.toList := by
    rw [strToList_append, strToList_append]
    show (key.toList ++ [':', '=']) ++ value.toList = _
    simp
  rw [ht, matchItemChars_colonEqForm key.toList value.toList hk1 hk2 hv]
  show some (String.mk key.toList, SepKind.colonEq, String.mk value.toList) = _
  rw [strMk_toList, strMk_toList]

/-- String-level `key:value` match, when the value does not start with
`=`. -/
theorem matchItem_colonForm (key value : String) (v : Char) (vs : List Char)
    (hk1 : key.toList ≠ []) (hk2 : ∀ c ∈ key.toList, isSepChar c = false)
    (hvl : value.toList = v :: vs) (hne : v ≠ '=') :
    matchItem (key ++ ":" ++ value) = some (key, SepKind.colon, value) := by
  unfold matchItem
  have ht : (key ++ ":" ++ value).toList = key.toList ++ ':' :: v :: vs := by
    rw [strToList_append, strToList_append, hvl]
    show (key.toList ++ [':']) ++ v :: vs = _
    simp
  rw [ht, matchItemChars_colonForm key.toList v vs hk1 hk2 hne]
  show some (String.mk key.toList, SepKind.colon, String.mk (v :: vs)) = _
  rw [← hvl, strMk_toList, strMk_toList]

/-- String-level: empty value after `=` or `:` fails the pattern. -/
theorem matchItem_emptyValue (key : String)
    (hk2 : ∀ c ∈ key.toList, isSepChar c = false) :
    matchItem (key ++ "=") = none ∧ matchItem (key ++ ":") = none := by
  constructor
  · unfold matchItem
    have ht : (key ++ "=").toList = key.toList ++ ['='] := by
      rw [strToList_append]
      rfl
    rw [ht, matchItemChars_eqEmpty key.toList hk2]
  · unfold matchItem
    have ht : (key ++ ":").toList = key.toList ++ [':'] := by
      rw [strToList_append]
      rfl
    rw [ht, matchItemChars_colonEmpty key.toList hk2]

/-- String-level: a token ending right after `:=` is matched, by
backtracking, as separator `:` with value `"="`. -/
theorem matchItem_colonEqEmptyVal (key : String)
    (hk1 : key.toList ≠ []) (hk2 : ∀ c ∈ key.toList, isSepChar c = false) :
    matchItem (key ++ ":=") = some (key, SepKind.colon, "=") := by
  unfold matchItem
  have ht : (key ++ ":=").toList = key.toList ++ [':', '='] := by
    rw [strToList_append]
    rfl
  rw [ht, matchItemChars_colonEqEmpty key.toList hk1 hk2]
  show some (String.mk key.toList, SepKind.colon, String.mk ['=']) = _
  rw [strMk_toList]

/-- String-level: a token whose first character is already a separator
(empty key) fails the pattern. -/
theorem matchItem_sepLead (t : String) (c : Char) (rest : List Char)
    (ht : t.toList = c :: rest) (hc : isSepChar c = true) :
    matchItem t = none := by
  unfold matchItem
  rw [ht]
  simp [matchItemChars, splitAtFirstSep, hc]

/-- C2: a token is matched at the first occurrence of a separator among
`=`, `:=`, `:`, with `:=` taking precedence over `:` at that position;
`key=value` stores the value as a literal string in parameters,
`key:=value` stores the decoded structured value in parameters, and
`key:value` stores the value as a plain string in metadata (no
decoding: the theorem holds for every decoder, which is never consulted
in the `:` case). -/
theorem parse_item_routing (decode : String → Option JsonValue)
    (key value : String) (acc : ParsedItems)
    (hk1 : key.toList ≠ []) (hk2 : ∀ c ∈ key.toList, isSepChar c = false)
    (hv : value.toList ≠ []) :
    parse_item decode (key ++ "=" ++ value) acc
      = .ok ⟨insertA key (JsonValue.str value) acc.params, acc.metadata⟩
  ∧ (∀ j, decode value = some j →
      parse_item decode (key ++ ":=" ++ value) acc
        = .ok ⟨insertA key j acc.params, acc.metadata⟩)
  ∧ (value.toList.head? ≠ some '=' →
      parse_item decode (key ++ ":" ++ value) acc
        = .ok ⟨acc.params, insertA key value acc.metadata⟩) := by
  refine ⟨?_, ?_, ?_⟩
  · simp [parse_item, matchItem_eqForm key value hk1 hk2 hv]
  · intro j hj
    simp [parse_item, matchItem_colonEqForm key value hk1 hk2 hv, hj]
  · intro hhead
    cases hvl : value.toList with
    | nil => exact absurd hvl hv
    | cons v vs =>
      have hne : v ≠ '=' := by
        rw [hvl] at hhead
        simpa using hhead
      simp [parse_item, matchItem_colonForm key value v vs hk1 hk2 hvl hne]

/-- Witness for C2 at the spec's examples: `x:=true` decodes into
parameters, `a=1` stores the literal string, `h:dev` goes to metadata. -/
theorem parse_item_routing_witness :
    parse_item decodeSimple "x:=true" ⟨[], []⟩ = .ok ⟨[("x", JsonValue.bool true)], []⟩
  ∧ parse_item decodeSimple "a=1" ⟨[], []⟩ = .ok ⟨[("a", JsonValue.str "1")], []⟩
  ∧ parse_item decodeSimple "h:dev" ⟨[], []⟩ = .ok ⟨[], [("h", "dev")]⟩ := by
  have h1 := (parse_item_routing decodeSimple "x" "true" ⟨[], []⟩
    (by decide) (by decide) (by decide)).2.1 (JsonValue.bool true) rfl
  have h2 := (parse_item_routing decodeSimple "a" "1" ⟨[], []⟩
    (by decide) (by decide) (by decide)).1
  have h3 := (parse_item_routing decodeSimple "h" "dev" ⟨[], []⟩
    (by decide) (by decide) (by decide)).2.2 (by decide)
  exact ⟨h1, h2, h3⟩

/-- C10 counterexample: the token `"k:="` (empty value after `:=`) is
NOT rejected: the pattern backtracks to the `:` alternative and the
parser stores `metadata["k"] = "="`. -/
theorem empty_json_value_not_rejected :
    parse_items (fun _ => none) ["k:="] = .ok ⟨[], [("k", "=")]⟩ := rfl

/-- C10 amended: tokens with an empty key (first character `=` or `:`,
which covers tokens beginning with `=`, `:` and `:=`) are rejected with
the invalid-item error, as are the empty-value forms `key=` and `key:`;
but `key:=` is not rejected — backtracking parses it as key, separator
`:`, value `"="`, storing a metadata entry. -/
theorem empty_key_value_edge_cases (decode : String → Option JsonValue)
    (key : String) (acc : ParsedItems)
    (hk1 : key.toList ≠ []) (hk2 : ∀ c ∈ key.toList, isSepChar c = false) :
    (∀ t : String, ∀ c rest, t.toList = c :: rest → isSepChar c = true →
      parse_item decode t acc = .error (.invalidItem t))
  ∧ parse_item decode (key ++ "=") acc = .error (.invalidItem (key ++ "="))
  ∧ parse_item decode (key ++ ":") acc = .error (.invalidItem (key ++ ":"))
  ∧ parse_item decode (key ++ ":=") acc
      = .ok ⟨acc.params, insertA key "=" acc.metadata⟩ := by
  refine ⟨?_, ?_, ?_, ?_⟩
  · intro t c rest ht hc
    simp [parse_item, matchItem_sepLead t c rest ht hc]
  · simp [parse_item, (matchItem_emptyValue key hk2).1]
  · simp [parse_item, (matchItem_emptyValue key hk2).2]
  · simp [parse_item, matchItem_colonEqEmptyVal key hk1 hk2]

/-- Witness for the amended C10: concrete edge tokens. -/
theorem empty_key_value_edge_cases_witness :
    parse_item (fun _ => none) "=v" ⟨[], []⟩ = .error (.invalidItem "=v")
  ∧ parse_item (fun _ => none) "k=" ⟨[], []⟩ = .error (.invalidItem "k=")
  ∧ parse_item (fun _ => none) "k:" ⟨[], []⟩ = .error (.invalidItem "k:")
  ∧ parse_item (fun _ => none) "k:=" ⟨[], []⟩ = .ok ⟨[], [("k", "=")]⟩ := by
  have h := empty_key_value_edge_cases (fun _ => none) "k" ⟨[], []⟩ (by decide) (by decide)
  exact ⟨h.1 "=v" '=' ['v'] rfl (by decide), h.2.1, h.2.2.1, h.2.2.2⟩

/-- An accepted token makes `parse_item` succeed from any accumulated
state. -/
theorem tokenOk_step (decode : String → Option JsonValue) (t : String)
    (h : tokenOk decode t = true) (acc : ParsedItems) :
    ∃ acc', parse_item decode t acc = .ok acc' := by
  cases hm : matchItem t with
  | none =>
    have hc : tokenOk decode t = false := by simp [tokenOk, hm]
    rw [hc] at h
    simp at h
  | some x =>
    obtain ⟨key, sep, v⟩ := x
    cases sep with
    | eq =>
      exact ⟨⟨insertA key (JsonValue.str v) acc.params, acc.metadata⟩,
        by simp [parse_item, hm]⟩
    | colonEq =>
      cases hd : decode v with
      | none =>
        have hc : tokenOk decode t = (decode v).isSome := by simp [tokenOk, hm]
        rw [hc, hd] at h
        simp at h
      | some j =>
        exact ⟨⟨insertA key j acc.params, acc.metadata⟩, by simp [parse_item, hm, hd]⟩
    | colon =>
      exact ⟨⟨acc.params, insertA key v acc.metadata⟩, by simp [parse_item, hm]⟩

/-- The loop on an empty token list returns the accumulated state. -/
theorem parseFrom_nil (decode : String → Option JsonValue) (acc : ParsedItems) :
    parseFrom decode acc [] = .ok acc := rfl

/-- One successful loop step. -/
theorem parseFrom_cons_ok (decode : String → Option JsonValue)
    (acc a : ParsedItems) (t : String) (ts : List String)
    (h : parse_item decode t acc = .ok a) :
    parseFrom decode acc (t :: ts) = parseFrom decode a ts := by
  show parse_item decode t acc >>= (fun x => parseFrom decode x ts) = _
  rw [h]
  rfl

/-- A failing loop step aborts the whole parse with that error. -/
theorem parseFrom_cons_error (decode : String → Option JsonValue)
    (acc : ParsedItems) (t : String) (ts : List String) (e : ParseError)
    (h : parse_item decode t acc = .error e) :
    parseFrom decode acc (t :: ts) = .error e := by
  show parse_item decode t acc >>= (fun x => parseFrom decode x ts) = _
  rw [h]
  rfl

/-- Splitting the loop at a successful run of its first part. -/
theorem parseFrom_append_ok (decode : String → Option JsonValue)
    (l1 : List String) :
    ∀ (acc mid : ParsedItems), parseFrom decode acc l1 = .ok mid →
      ∀ l2, parseFrom decode acc (l1 ++ l2) = parseFrom decode mid l2 := by
  induction l1 with
  | nil =>
    intro acc mid h l2
    rw [parseFrom_nil] at h
    cases h
    rfl
  | cons t ts ih =>
    intro acc mid h l2
    cases hpi : parse_item decode t acc with
    | error e =>
      rw [parseFrom_cons_error decode acc t ts e hpi] at h
      cases h
    | ok a =>
      rw [parseFrom_cons_ok decode acc a t ts hpi] at h
      rw [List.cons_append, parseFrom_cons_ok decode acc a t (ts ++ l2) hpi]
      exact ih a mid h l2

/-- A list of accepted tokens parses successfully from any accumulated
state. -/
theorem parseFrom_allOk (decode : String → Option JsonValue)
    (items : List String) (h : ∀ t ∈ items, tokenOk decode t = true) :
    ∀ acc, ∃ pm, parseFrom decode acc items = .ok pm := by
  induction items with
  | nil => intro acc; exact ⟨acc, rfl⟩
  | cons t ts ih =>
    intro acc
    obtain ⟨a, ha⟩ := tokenOk_step decode t (h t (by simp)) acc
    obtain ⟨pm, hpm⟩ := ih (fun s hs => h s (by simp [hs])) a
    exact ⟨pm, by rw [parseFrom_cons_ok decode acc a t ts ha]; exact hpm⟩

/-- Overwriting insertion makes the key's binding the inserted value. -/
theorem lookupA_insertA_self {α : Type} (k : String) (v : α) (m : List (String × α)) :
    lookupA k (insertA k v m) = some v := by
  induction m with
  | nil => simp [insertA, lookupA]
  | cons p rest ih =>
    obtain ⟨k0, v0⟩ := p
    by_cases h : k0 = k
    · simp [insertA, lookupA, h]
    · simp [insertA, lookupA, h, ih]

/-- Insertion never removes an existing key. -/
theorem lookupA_insertA_isSome {α : Type} (k k' : String) (v : α)
    (m : List (String × α)) (h : (lookupA k m).isSome = true) :
    (lookupA k (insertA k' v m)).isSome = true := by
  induction m with
  | nil => simp [lookupA] at h
  | cons p rest ih =>
    obtain ⟨k0, v0⟩ := p
    rw [lookupA] at h
    rw [insertA]
    by_cases h0 : k0 = k'
    · rw [if_pos h0, lookupA]
      by_cases hk : k' = k
      · rw [if_pos hk]; rfl
      · rw [if_neg hk]
        have hk0 : ¬k0 = k := fun hh => hk (by rw [← h0]; exact hh)
        rw [if_neg hk0] at h
        exact h
    · rw [if_neg h0, lookupA]
      by_cases hk : k0 = k
      · rw [if_pos hk]; rfl
      · rw [if_neg hk]
        rw [if_neg hk] at h
        exact ih h

/-- A successful `parse_item` step only inserts; existing keys stay
bound. -/
theorem parse_item_preserves (decode : String → Option JsonValue)
    (t : String) (acc a : ParsedItems)
    (h : parse_item decode t acc = .ok a) :
    (∀ k, (lookupA k acc.params).isSome = true → (lookupA k a.params).isSome = true)
  ∧ (∀ k, (lookupA k acc.metadata).isSome = true → (lookupA k a.metadata).isSome = true) := by
  cases hm : matchItem t with
  | none =>
    have hc : parse_item decode t acc = .error (.invalidItem t) := by simp [parse_item, hm]
    rw [hc] at h
    cases h
  | some x =>
    obtain ⟨key, sep, v⟩ := x
    cases sep with
    | eq =>
      have hc : parse_item decode t acc
          = .ok ⟨insertA key (JsonValue.str v) acc.params, acc.metadata⟩ := by
        simp [parse_item, hm]
      rw [hc] at h
      simp only [Except.ok.injEq] at h
      subst h
      exact ⟨fun k hk => lookupA_insertA_isSome k key _ _ hk, fun k hk => hk⟩
    | colonEq =>
      cases hd : decode v with
      | none =>
        have hc : parse_item decode t acc = .error (.invalidJson v) := by
          simp [parse_item, hm, hd]
        rw [hc] at h
        cases h
      | some j =>
        have hc : parse_item decode t acc = .ok ⟨insertA key j acc.params, acc.metadata⟩ := by
          simp [parse_item, hm, hd]
        rw [hc] at h
        simp only [Except.ok.injEq] at h
        subst h
        exact ⟨fun k hk => lookupA_insertA_isSome k key _ _ hk, fun k hk => hk⟩
    | colon =>
      have hc : parse_item decode t acc = .ok ⟨acc.params, insertA key v acc.metadata⟩ := by
        simp [parse_item, hm]
      rw [hc] at h
      simp only [Except.ok.injEq] at h
      subst h
      exact ⟨fun k hk => hk, fun k hk => lookupA_insertA_isSome k key _ _ hk⟩

/-- A successful `parse_item` step binds the matched key in the mapping
its separator routes to. -/
theorem parse_item_inserted (decode : String → Option JsonValue)
    (t : String) (acc a : ParsedItems) (key : String) (sep : SepKind) (v : String)
    (hm : matchItem t = some (key, sep, v))
    (h : parse_item decode t acc = .ok a) :
    (sep = SepKind.colon → (lookupA key a.metadata).isSome = true)
  ∧ (sep ≠ SepKind.colon → (lookupA key a.params).isSome = true) := by
  cases sep with
  | eq =>
    have hc : parse_item decode t acc
        = .ok ⟨insertA key (JsonValue.str v) acc.params, acc.metadata⟩ := by
      simp [parse_item, hm]
    rw [hc] at h
    simp only [Except.ok.injEq] at h
    subst h
    exact ⟨fun hs => (nomatch hs), fun _ => by simp [lookupA_insertA_self]⟩
  | colonEq =>
    cases hd : decode v with
    | none =>
      have hc : parse_item decode t acc = .error (.invalidJson v) := by
        simp [parse_item, hm, hd]
      rw [hc] at h
      cases h
    | some j =>
      have hc : parse_item decode t acc = .ok ⟨insertA key j acc.params, acc.metadata⟩ := by
        simp [parse_item, hm, hd]
      rw [hc] at h
      simp only [Except.ok.injEq] at h
      subst h
      exact ⟨fun hs => (nomatch hs), fun _ => by simp [lookupA_insertA_self]⟩
  | colon =>
    have hc : parse_item decode t acc = .ok ⟨acc.params, insertA key v acc.metadata⟩ := by
      simp [parse_item, hm]
    rw [hc] at h
    simp only [Except.ok.injEq] at h
    subst h
    exact ⟨fun _ => by simp [lookupA_insertA_self], fun hs => absurd rfl hs⟩

/-- Keys persist across the rest of the loop. -/
theorem parseFrom_keys_present (decode : String → Option JsonValue) :
    ∀ (items : List String) (acc pm : ParsedItems),
      parseFrom decode acc items = .ok pm →
      (∀ k, (lookupA k acc.params).isSome = true → (lookupA k pm.params).isSome = true)
    ∧ (∀ k, (lookupA k acc.metadata).isSome = true → (lookupA k pm.metadata).isSome = true) := by
  intro items
  induction items with
  | nil =>
    intro acc pm h
    rw [parseFrom_nil] at h
    cases h
    exact ⟨fun k hk => hk, fun k hk => hk⟩
  | cons t ts ih =>
    intro acc pm h
    cases hpi : parse_item decode t acc with
    | error e => rw [parseFrom_cons_error decode acc t ts e hpi] at h; cases h
    | ok a =>
      rw [parseFrom_cons_ok decode acc a t ts hpi] at h
      have hstep := parse_item_preserves decode t acc a hpi
      have hrest := ih a pm h
      exact ⟨fun k hk => hrest.1 k (hstep.1 k hk), fun k hk => hrest.2 k (hstep.2 k hk)⟩

/-- Every token of a successfully parsed list leaves its key bound in
the mapping its separator routes to: no token is dropped. -/
theorem parseFrom_token_keys (decode : String → Option JsonValue) :
    ∀ (items : List String) (acc pm : ParsedItems),
      parseFrom decode acc items = .ok pm →
      ∀ t ∈ items, ∀ key sep v, matchItem t = some (key, sep, v) →
        (sep = SepKind.colon → (lookupA key pm.metadata).isSome = true)
      ∧ (sep ≠ SepKind.colon → (lookupA key pm.params).isSome = true) := by
  intro items
  induction items with
  | nil => intro acc pm h t ht; cases ht
  | cons s ts ih =>
    intro acc pm h t ht key sep v hm
    cases hpi : parse_item decode s acc with
    | error e => rw [parseFrom_cons_error decode acc s ts e hpi] at h; cases h
    | ok a =>
      rw [parseFrom_cons_ok decode acc a s ts hpi] at h
      rcases List.mem_cons.mp ht with rfl | hmem
      · have hins := parse_item_inserted decode t acc a key sep v hm hpi
        have hpres := parseFrom_keys_present decode ts a pm h
        exact ⟨fun hs => hpres.2 key (hins.1 hs), fun hs => hpres.1 key (hins.2 hs)⟩
      · exact ih a pm h t hmem key sep v hm

/-- C7: if some token has no separator, the parse of the whole sequence
fails with the invalid-item error naming that raw token (the loop
reports the first offending token, so the earlier tokens are assumed
accepted), and if a `key:=value` token's value fails to decode, the
parse fails with the invalid-JSON error naming the raw value text; in
either case the parser returns only the error — the `Except` result is
exclusive, so no incomplete (parameters, metadata) pair escapes. -/
theorem parse_items_failure (decode : String → Option JsonValue)
    (pre : List String) (t : String) (post : List String)
    (hpre : ∀ s ∈ pre, tokenOk decode s = true) :
    (matchItem t = none →
      parse_items decode (pre ++ t :: post) = .error (.invalidItem t))
  ∧ (∀ key value, matchItem t = some (key, SepKind.colonEq, value) →
      decode value = none →
      parse_items decode (pre ++ t :: post) = .error (.invalidJson value))
  ∧ (∀ e pm, parse_items decode (pre ++ t :: post) = .error e →
      parse_items decode (pre ++ t :: post) ≠ .ok pm) := by
  obtain ⟨mid, hmid⟩ := parseFrom_allOk decode pre hpre ⟨[], []⟩
  refine ⟨?_, ?_, ?_⟩
  · intro hm
    have hpi : parse_item decode t mid = .error (.invalidItem t) := by
      simp [parse_item, hm]
    unfold parse_items
    rw [parseFrom_append_ok decode pre ⟨[], []⟩ mid hmid (t :: post),
        parseFrom_cons_error decode mid t post _ hpi]
  · intro key value hm hd
    have hpi : parse_item decode t mid = .error (.invalidJson value) := by
      simp [parse_item, hm, hd]
    unfold parse_items
    rw [parseFrom_append_ok decode pre ⟨[], []⟩ mid hmid (t :: post),
        parseFrom_cons_error decode mid t post _ hpi]
  · intro e pm he hok
    rw [he] at hok
    cases hok

/-- Witness for C7 at the spec's examples: a separator-free token and an
undecodable `:=` value. -/
theorem parse_items_failure_witness :
    parse_items decodeSimple ["a=1", "badtoken"] = .error (.invalidItem "badtoken")
  ∧ parse_items decodeSimple ["x:=not"] = .error (.invalidJson "not") := by
  constructor
  · exact (parse_items_failure decodeSimple ["a=1"] "badtoken" [] (by decide)).1 rfl
  · exact (parse_items_failure decodeSimple [] "x:=not" [] (by decide)).2.1 "x" "not" rfl rfl

/-- C8: a token sequence in which every token matches the grammar (and
decodes, for `:=` tokens) parses successfully; the empty sequence yields
two empty mappings; duplicate keys resolve by plain mapping overwrite
with the last occurrence winning (in particular
`parse(["a=1","a=2"]) = ({"a": "2"}, {})`, and appending a further
`key=value` token to any successful parse rebinds the key to that last
value); and no token is dropped — every parsed token leaves its key
bound in the mapping its separator routes to. -/
theorem parse_items_wellformed (decode : String → Option JsonValue)
    (items : List String)
    (h : ∀ t ∈ items, tokenOk decode t = true) :
    (∃ pm, parse_items decode items = .ok pm)
  ∧ parse_items decode [] = .ok ⟨[], []⟩
  ∧ parse_items decode ["a=1", "a=2"] = .ok ⟨[("a", JsonValue.str "2")], []⟩
  ∧ (∀ pm, parse_items decode items = .ok pm →
      ∀ t ∈ items, ∀ key sep v, matchItem t = some (key, sep, v) →
        (sep = SepKind.colon → (lookupA key pm.metadata).isSome = true)
      ∧ (sep ≠ SepKind.colon → (lookupA key pm.params).isSome = true))
  ∧ (∀ pm key value t, parse_items decode items = .ok pm →
      matchItem t = some (key, SepKind.eq, value) →
      parse_items decode (items ++ [t])
        = .ok ⟨insertA key (JsonValue.str value) pm.params, pm.metadata⟩
      ∧ lookupA key (insertA key (JsonValue.str value) pm.params)
        = some (JsonValue.str value)) := by
  refine ⟨parseFrom_allOk decode items h ⟨[], []⟩, rfl, rfl, ?_, ?_⟩
  · intro pm hpm
    exact parseFrom_token_keys decode items ⟨[], []⟩ pm hpm
  · intro pm key value t hpm hm
    have hpi : parse_item decode t pm
        = .ok ⟨insertA key (JsonValue.str value) pm.params, pm.metadata⟩ := by
      simp [parse_item, hm]
    constructor
    · unfold parse_items at hpm ⊢
      rw [parseFrom_append_ok decode items ⟨[], []⟩ pm hpm [t],
          parseFrom_cons_ok decode pm _ t [] hpi, parseFrom_nil]
    · exact lookupA_insertA_self key (JsonValue.str value) pm.params

/-- Witness for C8: a mixed well-formed sequence parses, and the
duplicate-key example resolves to the last value. -/
theorem parse_items_wellformed_witness :
    (∃ pm, parse_items decodeSimple ["a=1", "x:=true", "h:dev", "a=2"] = .ok pm)
  ∧ parse_items decodeSimple ["a=1", "a=2"] = .ok ⟨[("a", JsonValue.str "2")], []⟩ := by
  have h := parse_items_wellformed decodeSimple ["a=1", "x:=true", "h:dev", "a=2"] (by decide)
  exact ⟨h.1, h.2.2.1⟩

/-- C1: for every target beginning with `http://` or `https://`, the
selector chooses the event-stream (SSE) transport with the target used
unmodified as the endpoint when the target ends with `/sse`; otherwise
it chooses the streaming-HTTP transport, with the endpoint unchanged
when the target already ends with `/mcp` or `/mcp/`, and otherwise the
target with one trailing `/` removed (if present) and `/mcp/` appended.
In both network cases the metadata mapping is carried as the HTTP
request headers (an empty mapping is passed as `None`, which carries the
same — empty — set of header entries). -/
theorem network_transport_selection (split : String → List String)
    (target : String) (metadata : List (String × String))
    (h : strStartsWith target "http://" = true ∨ strStartsWith target "https://" = true) :
    (strEndsWith target "/sse" = true →
      selectTransport split target metadata = .ok (.sse target (orNone metadata)))
  ∧ (strEndsWith target "/sse" = false →
      strEndsWith target "/mcp" = true ∨ strEndsWith target "/mcp/" = true →
      selectTransport split target metadata = .ok (.streamableHttp target (orNone metadata)))
  ∧ (strEndsWith target "/sse" = false → strEndsWith target "/mcp" = false →
      strEndsWith target "/mcp/" = false →
      selectTransport split target metadata
        = .ok (.streamableHttp (removesuffix target "/" ++ "/mcp/") (orNone metadata)))
  ∧ headersEntries (orNone metadata) = metadata := by
  have hcond : (strStartsWith target "http://" || strStartsWith target "https://") = true := by
    rcases h with h | h <;> simp [h]
  refine ⟨?_, ?_, ?_, ?_⟩
  · intro hsse
    simp [selectTransport, hcond, hsse]
  · intro hsse hmcp
    rcases hmcp with hm | hm <;> simp [selectTransport, hcond, hsse, hm]
  · intro hsse h1 h2
    simp [selectTransport, hcond, hsse, h1, h2]
  · cases metadata <;> simp [headersEntries, orNone]

/-- Witness for C1 at the spec's three concrete normalization examples. -/
theorem network_transport_selection_witness :
    (strStartsWith "https://example.com" "https://" = true
      ∧ selectTransport shlexSplitPosix "https://example.com" []
          = .ok (.streamableHttp "https://example.com/mcp/" none))
  ∧ selectTransport shlexSplitPosix "https://example.com/foo/sse" []
      = .ok (.sse "https://example.com/foo/sse" none)
  ∧ selectTransport shlexSplitPosix "https://example.com/mcp" []
      = .ok (.streamableHttp "https://example.com/mcp" none) := by
  refine ⟨⟨by decide, ?_⟩, ?_, ?_⟩
  · exact (network_transport_selection shlexSplitPosix "https://example.com" []
      (Or.inr (by decide))).2.2.1 (by decide) (by decide) (by decide)
  · exact (network_transport_selection shlexSplitPosix "https://example.com/foo/sse" []
      (Or.inr (by decide))).1 (by decide)
  · exact (network_transport_selection shlexSplitPosix "https://example.com/mcp" []
      (Or.inr (by decide))).2.1 (by decide) (Or.inl (by decide))

/-- C6: for every target that does not begin with `http://` or
`https://`, the target is handed to the shell-word tokenizer; zero
tokens fail with `stdio command is empty`, otherwise the first token is
the child command, the remaining tokens its arguments, and the child's
environment is exactly the metadata mapping when non-empty and the
default environment (`None`) when the metadata is empty.  The theorem
holds for every tokenizer `split`; the witness instantiates it with the
POSIX shell-word splitting model. -/
theorem stdio_transport_selection (split : String → List String)
    (target : String) (metadata : List (String × String))
    (h1 : strStartsWith target "http://" = false)
    (h2 : strStartsWith target "https://" = false) :
    (split target = [] →
      selectTransport split target metadata = .error "stdio command is empty")
  ∧ (∀ command args, split target = command :: args →
      selectTransport split target metadata = .ok (.stdio command args (orNone metadata)))
  ∧ (metadata ≠ [] → orNone metadata = some metadata)
  ∧ orNone ([] : List (String × String)) = none := by
  refine ⟨?_, ?_, ?_, rfl⟩
  · intro hs; simp [selectTransport, h1, h2, hs]
  · intro cmd args hs; simp [selectTransport, h1, h2, hs]
  · intro hm; simp [orNone, hm]

/-- Witness for C6: `"mycli --flag"` tokenizes to command `mycli` with
argument `--flag` (metadata becoming the environment), and a
whitespace-only target fails with the empty-command error. -/
theorem stdio_transport_selection_witness :
    (shlexSplitPosix "mycli --flag" = ["mycli", "--flag"]
      ∧ selectTransport shlexSplitPosix "mycli --flag" [("PATH", "/bin")]
          = .ok (.stdio "mycli" ["--flag"] (some [("PATH", "/bin")])))
  ∧ selectTransport shlexSplitPosix "   " [] = .error "stdio command is empty" := by
  refine ⟨⟨by decide, ?_⟩, ?_⟩
  · exact (stdio_transport_selection shlexSplitPosix "mycli --flag" [("PATH", "/bin")]
      (by decide) (by decide)).2.1 "mycli" ["--flag"] (by decide)
  · exact (stdio_transport_selection shlexSplitPosix "   " [] (by decide) (by decide)).1
      (by decide)

/-- Case analysis of the session body: the four possible runs of the
handshake-then-dispatch block. -/
theorem sessionBody_shape (c : Client) (verbose : Bool) (b : SessionBehavior) :
    (b.handshakeOk = false →
      sessionBody c verbose b = ([Ev.handshake], .error .handshakeError))
  ∧ (b.handshakeOk = true → c.method ∈ METHODS → b.callOk = true →
      sessionBody c verbose b
        = ([Ev.handshake, Ev.dispatch c.method,
            if verbose then Ev.renderResponse else Ev.renderResult], .ok ()))
  ∧ (b.handshakeOk = true → c.method ∈ METHODS → b.callOk = false →
      sessionBody c verbose b = ([Ev.handshake, Ev.dispatch c.method], .error .callError))
  ∧ (b.handshakeOk = true → c.method ∉ METHODS →
      sessionBody c verbose b = ([Ev.handshake], .error (.unsupportedMethod c.method))) := by
  refine ⟨?_, ?_, ?_, ?_⟩
  · intro h1; simp [sessionBody, h1]
  · intro h1 h2 h3; simp [sessionBody, h1, h2, h3]
  · intro h1 h2 h3; simp [sessionBody, h1, h2, h3]
  · intro h1 h2; simp [sessionBody, h1, h2]

/-- Case analysis of the invocation trace once transport selection
succeeded: not-connected, session-entry failure, and the fully acquired
case where both releases close the trace. -/
theorem invokeTrace_shape (split : String → List String)
    (c : Client) (verbose : Bool) (b : SessionBehavior) (t : Transport)
    (hsel : selectTransport split c.cmd_or_url c.metadata = .ok t) :
    (b.transportOk = false →
      invokeTrace split c verbose b
        = ((if verbose then [Ev.renderRequest] else []), .error .connectError))
  ∧ (b.transportOk = true → b.sessionOk = false →
      invokeTrace split c verbose b
        = ((if verbose then [Ev.renderRequest] else [])
            ++ [Ev.openTransport, Ev.closeTransport], .error .connectError))
  ∧ (b.transportOk = true → b.sessionOk = true →
      invokeTrace split c verbose b
        = ((if verbose then [Ev.renderRequest] else [])
            ++ [Ev.openTransport, Ev.openSession] ++ (sessionBody c verbose b).1
            ++ [Ev.closeSession, Ev.closeTransport], (sessionBody c verbose b).2)) := by
  refine ⟨?_, ?_, ?_⟩
  · intro ht; simp [invokeTrace, hsel, ht]
  · intro ht hs; simp [invokeTrace, hsel, ht, hs]
  · intro ht hs; simp [invokeTrace, hsel, ht, hs]

/-- C5: the session and the transport binding are released whenever they
were acquired, on every exit path of the invocation — success,
handshake failure, dispatch error, and any exception/cancellation at an
await (all captured by the behaviour flags) — in reverse order of
acquisition: `closeSession` then `closeTransport` end the trace.  When
selection fails or the transport was never entered, nothing was acquired
and nothing leaks; when only the transport was entered, it alone is
released. -/
theorem invoke_releases_resources (split : String → List String)
    (c : Client) (verbose : Bool) (b : SessionBehavior) :
    (∀ msg, selectTransport split c.cmd_or_url c.metadata = .error msg →
      invokeTrace split c verbose b = ([], .error (.selectError msg)))
  ∧ (∀ t, selectTransport split c.cmd_or_url c.metadata = .ok t →
      (b.transportOk = false →
        invokeTrace split c verbose b
          = ((if verbose then [Ev.renderRequest] else []), .error .connectError))
      ∧ (b.transportOk = true → b.sessionOk = false →
        invokeTrace split c verbose b
          = ((if verbose then [Ev.renderRequest] else [])
              ++ [Ev.openTransport, Ev.closeTransport], .error .connectError))
      ∧ (b.transportOk = true → b.sessionOk = true →
        ∃ body outcome, invokeTrace split c verbose b
          = ((if verbose then [Ev.renderRequest] else [])
              ++ [Ev.openTransport, Ev.openSession] ++ body
              ++ [Ev.closeSession, Ev.closeTransport], outcome))) := by
  constructor
  · intro msg hsel
    simp [invokeTrace, hsel]
  · intro t hsel
    have hshape := invokeTrace_shape split c verbose b t hsel
    exact ⟨hshape.1, hshape.2.1,
      fun ht hs => ⟨(sessionBody c verbose b).1, (sessionBody c verbose b).2,
        hshape.2.2 ht hs⟩⟩

/-- Witness for C5: a stdio invocation whose dispatched call fails (the
spec's `resources/read` missing-parameter scenario) still ends its trace
with `closeSession, closeTransport`. -/
theorem invoke_releases_resources_witness :
    ∃ body outcome,
      invokeTrace shlexSplitPosix ⟨"srv --port 1", "resources/read", [], []⟩ false
        ⟨true, true, true, false⟩
      = ((if false then [Ev.renderRequest] else [])
          ++ [Ev.openTransport, Ev.openSession] ++ body
          ++ [Ev.closeSession, Ev.closeTransport], outcome) := by
  exact ((invoke_releases_resources shlexSplitPosix
      ⟨"srv --port 1", "resources/read", [], []⟩ false ⟨true, true, true, false⟩).2
      (Transport.stdio "srv" ["--port", "1"] none) (by decide)).2.2 rfl rfl

/-- C4 counterexample: with verbose requested the outgoing pseudo-request
is rendered BEFORE the transport is connected and the session is
established, not after: in the concrete successful run below,
`renderRequest` is the first event (it never occurs later), while
`openSession` only occurs afterwards — contradicting the claim that the
rendering happens after steps 1–2 (session establishment). -/
theorem verbose_render_before_session_cx :
    invokeTrace shlexSplitPosix ⟨"http://example.com/mcp", "tools/list", [], []⟩ true
      ⟨true, true, true, true⟩
    = ([Ev.renderRequest, Ev.openTransport, Ev.openSession, Ev.handshake,
        Ev.dispatch "tools/list", Ev.renderResponse, Ev.closeSession, Ev.closeTransport],
       .ok ())
  ∧ Ev.renderRequest ∉
      (invokeTrace shlexSplitPosix ⟨"http://example.com/mcp", "tools/list", [], []⟩ true
        ⟨true, true, true, true⟩).1.drop 1
  ∧ Ev.openSession ∈
      (invokeTrace shlexSplitPosix ⟨"http://example.com/mcp", "tools/list", [], []⟩ true
        ⟨true, true, true, true⟩).1.drop 1 := by
  refine ⟨?_, ?_, ?_⟩ <;> decide

/-- C4 amended: the session wraps the transport binding (`openSession`
follows `openTransport` directly) and the handshake completes before any
operation call is dispatched; but when verbose mode is requested the
outgoing pseudo-request is rendered FIRST, before the transport is
connected and the session established (and hence, in particular, before
the call is dispatched). -/
theorem invoke_event_ordering (split : String → List String)
    (c : Client) (verbose : Bool) (b : SessionBehavior) (t : Transport)
    (hsel : selectTransport split c.cmd_or_url c.metadata = .ok t) :
    (verbose = true → ∃ rest, (invokeTrace split c verbose b).1 = Ev.renderRequest :: rest)
  ∧ (∀ m, Ev.dispatch m ∈ (invokeTrace split c verbose b).1 →
      ∃ l1 l2, (invokeTrace split c verbose b).1 = l1 ++ Ev.handshake :: l2
        ∧ Ev.dispatch m ∈ l2)
  ∧ (Ev.openSession ∈ (invokeTrace split c verbose b).1 →
      ∃ l1 l2, (invokeTrace split c verbose b).1
        = l1 ++ Ev.openTransport :: Ev.openSession :: l2) := by
  have hshape := invokeTrace_shape split c verbose b t hsel
  have hbody := sessionBody_shape c verbose b
  by_cases ht : b.transportOk = false
  · have htr := hshape.1 ht
    refine ⟨?_, ?_, ?_⟩
    · intro hv; subst hv; exact ⟨[], by simp [htr]⟩
    · intro m hm
      rw [htr] at hm
      exfalso
      cases verbose <;> simp at hm
    · intro hm
      rw [htr] at hm
      exfalso
      cases verbose <;> simp at hm
  · have ht' : b.transportOk = true := by revert ht; cases b.transportOk <;> simp
    by_cases hs : b.sessionOk = false
    · have htr := hshape.2.1 ht' hs
      refine ⟨?_, ?_, ?_⟩
      · intro hv; subst hv
        exact ⟨[Ev.openTransport, Ev.closeTransport], by simp [htr]⟩
      · intro m hm
        rw [htr] at hm
        exfalso
        cases verbose <;> simp at hm
      · intro hm
        rw [htr] at hm
        exfalso
        cases verbose <;> simp at hm
    · have hs' : b.sessionOk = true := by revert hs; cases b.sessionOk <;> simp
      have htr := hshape.2.2 ht' hs'
      refine ⟨?_, ?_, ?_⟩
      · intro hv; subst hv
        exact ⟨[Ev.openTransport, Ev.openSession] ++ (sessionBody c true b).1
            ++ [Ev.closeSession, Ev.closeTransport], by simp [htr]⟩
      · intro m hm
        rw [htr] at hm
        by_cases hh : b.handshakeOk = false
        · rw [hbody.1 hh] at hm
          exfalso
          cases verbose <;> simp at hm
        · have hh' : b.handshakeOk = true := by revert hh; cases b.handshakeOk <;> simp
          by_cases hmm : c.method ∈ METHODS
          · by_cases hc : b.callOk = true
            · have hb := hbody.2.1 hh' hmm hc
              rw [hb] at hm
              have hmeq : m = c.method := by
                cases verbose <;> simp at hm <;> exact hm
              subst hmeq
              refine ⟨(if verbose then [Ev.renderRequest] else [])
                  ++ [Ev.openTransport, Ev.openSession],
                [Ev.dispatch c.method,
                  if verbose then Ev.renderResponse else Ev.renderResult,
                  Ev.closeSession, Ev.closeTransport], ?_, by simp⟩
              rw [htr, hb]
              simp
            · have hc' : b.callOk = false := by revert hc; cases b.callOk <;> simp
              have hb := hbody.2.2.1 hh' hmm hc'
              rw [hb] at hm
              have hmeq : m = c.method := by
                cases verbose <;> simp at hm <;> exact hm
              subst hmeq
              refine ⟨(if verbose then [Ev.renderRequest] else [])
                  ++ [Ev.openTransport, Ev.openSession],
                [Ev.dispatch c.method, Ev.closeSession, Ev.closeTransport], ?_, by simp⟩
              rw [htr, hb]
              simp
          · have hb := hbody.2.2.2 hh' hmm
            rw [hb] at hm
            exfalso
            cases verbose <;> simp at hm
      · intro hm
        refine ⟨(if verbose then [Ev.renderRequest] else []),
          (sessionBody c verbose b).1 ++ [Ev.closeSession, Ev.closeTransport], ?_⟩
        rw [htr]
        simp

/-- Witness for the amended C4: a concrete verbose run starts with the
request rendering and dispatches only after the handshake. -/
theorem invoke_event_ordering_witness :
    (∃ rest,
      (invokeTrace shlexSplitPosix ⟨"https://example.com/sse", "prompts/list", [], []⟩ true
        ⟨true, true, true, true⟩).1 = Ev.renderRequest :: rest)
  ∧ (∃ l1 l2,
      (invokeTrace shlexSplitPosix ⟨"https://example.com/sse", "prompts/list", [], []⟩ true
        ⟨true, true, true, true⟩).1 = l1 ++ Ev.handshake :: l2
      ∧ Ev.dispatch "prompts/list" ∈ l2) := by
  have h := invoke_event_ordering shlexSplitPosix
    ⟨"https://example.com/sse", "prompts/list", [], []⟩ true ⟨true, true, true, true⟩
    (Transport.sse "https://example.com/sse" none) (by decide)
  exact ⟨h.1 rfl, h.2.1 "prompts/list" (by decide)⟩

/-- C3 counterexample: the `Client` value itself performs no operation
validation — a `Client` with method `"bogus"` is constructed without
rejection, and invoking it connects the transport, enters the session
and completes the handshake BEFORE the dispatch `match` hits its
defensive catch-all; so the rejection is neither at `Client`
construction nor before a connection is attempted, and the dispatch
step does see the unrecognized operation. -/
theorem client_construction_not_validated :
    (Client.mk "http://example.com/mcp" "bogus" [] []).method ∉ METHODS
  ∧ invokeTrace shlexSplitPosix (Client.mk "http://example.com/mcp" "bogus" [] []) false
      ⟨true, true, true, true⟩
    = ([Ev.openTransport, Ev.openSession, Ev.handshake, Ev.closeSession, Ev.closeTransport],
       .error (.unsupportedMethod "bogus")) := by
  refine ⟨?_, ?_⟩ <;> decide

/-- A `Client` successfully produced by `main`'s pre-connection phase
carries the validated method. -/
theorem mainPrepare_ok_method (decode : String → Option JsonValue)
    (cmd method : String) (items : List String) (c : Client)
    (h : mainPrepare decode cmd method items = .ok c) :
    c.method = method ∧ method ∈ METHODS := by
  unfold mainPrepare at h
  by_cases hm : method ∈ METHODS
  · rw [if_pos hm] at h
    cases hpi : parse_items decode items with
    | error pe => simp [hpi] at h
    | ok pm =>
      simp only [hpi] at h
      simp only [Except.ok.injEq] at h
      subst h
      exact ⟨rfl, hm⟩
  · rw [if_neg hm] at h
    cases h

/-- The dispatch catch-all is unreachable for a method in the
enumeration. -/
theorem sessionBody_outcome_supported (c : Client) (verbose : Bool)
    (b : SessionBehavior) (hm : c.method ∈ METHODS) (m : String) :
    (sessionBody c verbose b).2 ≠ .error (.unsupportedMethod m) := by
  by_cases hh : b.handshakeOk = false
  · simp [sessionBody, hh]
  · have hh' : b.handshakeOk = true := by revert hh; cases b.handshakeOk <;> simp
    by_cases hc : b.callOk
    · simp [sessionBody, hh', hm, hc]
    · simp [sessionBody, hh', hm, hc]

/-- An invocation of a `Client` whose method is in the enumeration never
fails with the unsupported-method error. -/
theorem invokeTrace_no_unsupported (split : String → List String)
    (c : Client) (verbose : Bool) (b : SessionBehavior)
    (hm : c.method ∈ METHODS) (m : String) :
    (invokeTrace split c verbose b).2 ≠ .error (.unsupportedMethod m) := by
  cases hsel : selectTransport split c.cmd_or_url c.metadata with
  | error msg => simp [invokeTrace, hsel]
  | ok t =>
    by_cases ht : b.transportOk = false
    · simp [invokeTrace, hsel, ht]
    · by_cases hs : b.sessionOk = false
      · simp [invokeTrace, hsel, ht, hs]
      · have hshape :
            (invokeTrace split c verbose b).2 = (sessionBody c verbose b).2 := by
          simp [invokeTrace, hsel, ht, hs]
        rw [hshape]
        exact sessionBody_outcome_supported c verbose b hm m

/-- C3 amended: the seven-method membership check lives in `main`, not
in the `Client` constructor: `main` rejects any other operation value
before constructing the `Client` and before any connection is attempted
(the trace of a rejected run is empty), any `Client` it does construct
carries a validated method, and on the `main` path the dispatch step
never sees an unrecognized operation (the defensive catch-all is
unreachable).  A directly constructed `Client`, by contrast, accepts any
method string (see the counterexample). -/
theorem method_checked_in_main (decode : String → Option JsonValue)
    (split : String → List String) (cmd method : String)
    (items : List String) (verbose : Bool) (b : SessionBehavior) :
    (method ∉ METHODS →
      mainTrace decode split cmd method items verbose b
        = ([], some (.invalidMethod method)))
  ∧ (∀ c, mainPrepare decode cmd method items = .ok c → c.method ∈ METHODS)
  ∧ (∀ m, (mainTrace decode split cmd method items verbose b).2
      ≠ some (.invokeFailed (.unsupportedMethod m))) := by
  refine ⟨?_, ?_, ?_⟩
  · intro hm
    simp [mainTrace, mainPrepare, hm]
  · intro c hc
    obtain ⟨hcm, hmem⟩ := mainPrepare_ok_method decode cmd method items c hc
    rw [hcm]
    exact hmem
  · intro m
    cases hp : mainPrepare decode cmd method items with
    | error e =>
      have htr : mainTrace decode split cmd method items verbose b = ([], some e) := by
        simp [mainTrace, hp]
      rw [htr]
      unfold mainPrepare at hp
      by_cases hm : method ∈ METHODS
      · rw [if_pos hm] at hp
        cases hpi : parse_items decode items with
        | error pe =>
          simp only [hpi] at hp
          simp only [Except.error.injEq] at hp
          subst hp
          simp
        | ok pm => simp [hpi] at hp
      · rw [if_neg hm] at hp
        simp only [Except.error.injEq] at hp
        subst hp
        simp
    | ok c =>
      obtain ⟨hcm, hmem⟩ := mainPrepare_ok_method decode cmd method items c hp
      have hno := invokeTrace_no_unsupported split c verbose b (by rw [hcm]; exact hmem) m
      cases hiv : invokeTrace split c verbose b with
      | mk tr out =>
        cases out with
        | ok u =>
          have htr : mainTrace decode split cmd method items verbose b = (tr, none) := by
            simp [mainTrace, hp, hiv]
          rw [htr]
          simp
        | error e =>
          have htr : mainTrace decode split cmd method items verbose b
              = (tr, some (.invokeFailed e)) := by
            simp [mainTrace, hp, hiv]
          rw [htr]
          rw [hiv] at hno
          simp only at hno
          simp
          intro hcontra
          exact hno (by rw [hcontra])

/-- Witness for the amended C3: a run with an invalid method is rejected
with no connection event, and a validated run never reports the
catch-all error. -/
theorem method_checked_in_main_witness :
    mainTrace decodeSimple shlexSplitPosix "http://example.com/mcp" "bogus" [] false
      ⟨true, true, true, true⟩ = ([], some (.invalidMethod "bogus")) := by
  exact (method_checked_in_main decodeSimple shlexSplitPosix "http://example.com/mcp" "bogus"
    [] false ⟨true, true, true, true⟩).1 (by decide)

/-- C9: the request and response envelopes carry the same constant call
identifier (1); the request envelope's operation and parameters equal
the parsed request's method and parameters, with the `None` marker
substituted when the parameter mapping is empty; and the result carried
in the response envelope (defaults omitted) serializes to exactly the
bare non-verbose rendering of the same result. -/
theorem verbose_envelopes (c : Client) (r : MCPResult) :
    (show_jsonrpc_request c).id = 1
  ∧ (show_jsonrpc_response r).id = (show_jsonrpc_request c).id
  ∧ (show_jsonrpc_request c).method = c.method
  ∧ (show_jsonrpc_request c).params
      = (if c.params.isEmpty then none else some c.params)
  ∧ jsonSerialize (JsonValue.obj (show_jsonrpc_response r).result) = bareRender r :=
  ⟨rfl, rfl, rfl, rfl, rfl⟩

end Cmcp
